import Mathlib

/-!
Verification of `automatic.py` (XMRig `config.json` worker-suffix patcher).

Shallow embedding conventions:
* Python strings are embedded as `List Char` (`Str`); Python string literals
  appear as Lean string literals followed by `.data`.
* `json.loads` / `json.dumps(..., ensure_ascii=False, indent=2)` are embedded
  by an executable recursive-descent parser and printer over the inductive
  `JVal` tree.  The model restricts JSON numbers to integers and omits
  `\uXXXX` string escapes (no claim depends on either); recursion is driven
  by explicit fuel (Python itself is subject to the interpreter recursion
  limit for deeply nested documents).
* Python `dict` objects are embedded as association lists with unique keys in
  insertion order; `dictGet`/`dictSet` mirror `d.get(k)` / `d[k] = v`, and the
  parser collapses duplicate JSON keys with last-value-wins exactly as
  `json.loads` does.
* The filesystem effect of one patch invocation is embedded as the ordered
  list of `(path, content)` writes the call performs; an exception is an
  `Except.error` result, in which case no write happens (in the source both
  `write_text` calls come after every raise site).
-/

set_option maxRecDepth 20000

/-- Python strings, embedded as lists of characters. -/
abbrev Str := List Char

/-! ## Validator: `looks_like_solana_address` (automatic.py lines 9-20) -/

/-- Whitespace stripped by Python `str.strip()` (restricted to the ASCII
whitespace characters; the Unicode additions are irrelevant to the claims). -/
def pyIsSpace (c : Char) : Bool :=
  c == ' ' || c == '\t' || c == '\n' || c == '\r' || c == '\x0b' || c == '\x0c'

/-- Python `s.strip()`: drop leading and trailing whitespace. -/
def pyStrip (s : Str) : Str :=
  ((s.dropWhile pyIsSpace).reverse.dropWhile pyIsSpace).reverse

/-- Membership in the character class `[1-9A-HJ-NP-Za-km-z]` of the regex at
automatic.py line 18 (base58: digits 1-9, uppercase without I and O,
lowercase without l). -/
def isBase58Char (c : Char) : Bool :=
  (decide ('1' ≤ c) && decide (c ≤ '9')) ||
  (decide ('A' ≤ c) && decide (c ≤ 'H')) ||
  (decide ('J' ≤ c) && decide (c ≤ 'N')) ||
  (decide ('P' ≤ c) && decide (c ≤ 'Z')) ||
  (decide ('a' ≤ c) && decide (c ≤ 'k')) ||
  (decide ('m' ≤ c) && decide (c ≤ 'z'))

/-- `looks_like_solana_address` (automatic.py lines 9-20): strip, check the
length is in [32, 44], then check `re.fullmatch(r"[1-9A-HJ-NP-Za-km-z]+", s)`
(a full match of `+` requires a non-empty string of class characters). -/
def looks_like_solana_address (s0 : Str) : Bool :=
  let s := pyStrip s0
  if ¬ (32 ≤ s.length ∧ s.length ≤ 44) then false
  else if ¬ (s ≠ [] ∧ s.all isBase58Char = true) then false
  else true

/-! ## Suffix replacer: `replace_worker_part` (automatic.py lines 22-30) -/

/-- `replace_worker_part(user_value, sol_addr)` (automatic.py lines 22-30):
if `"." not in user_value` return it unchanged (the `isinstance` guard is
vacuous here since the embedding is typed); otherwise
`prefix, _ = user_value.rsplit(".", 1)` keeps everything before the last `.`
and the result is `f"{prefix}.{sol_addr}"`.  The split at the last `.` is
computed by reversing, dropping up to the first `.` of the reversal, and
reversing back. -/
def replace_worker_part (user_value : Str) (sol_addr : Str) : Str :=
  if '.' ∈ user_value then
    (((user_value.reverse.dropWhile (fun c => c != '.')).drop 1).reverse) ++ '.' :: sol_addr
  else user_value

/-! ## JSON documents -/

/-- Structured data returned by `json.loads`: JSON values with integer
numbers.  Objects are association lists in Python dict insertion order. -/
inductive JVal : Type where
  | null : JVal
  | bool : Bool → JVal
  | num : Int → JVal
  | str : Str → JVal
  | arr : List JVal → JVal
  | obj : List (Str × JVal) → JVal

/-- Python `d.get(k)` on a dict embedded as an association list. -/
def dictGet (fs : List (Str × JVal)) (k : Str) : Option JVal :=
  match fs with
  | [] => none
  | (k2, v) :: rest => if k2 = k then some v else dictGet rest k

/-- Python `d[k] = v` on a dict embedded as an association list: replace the
value of an existing key in place, else append the new binding (dict
insertion-order semantics). -/
def dictSet (fs : List (Str × JVal)) (k : Str) (v : JVal) : List (Str × JVal) :=
  match fs with
  | [] => [(k, v)]
  | (k2, v2) :: rest => if k2 = k then (k2, v) :: rest else (k2, v2) :: dictSet rest k v

/-! ### `json.loads` -/

/-- JSON inter-token whitespace. -/
def jsonWs (c : Char) : Bool := c == ' ' || c == '\t' || c == '\n' || c == '\r'

/-- Skip leading JSON whitespace. -/
def skipWs (s : Str) : Str := s.dropWhile jsonWs

/-- JSON string escape characters accepted after a backslash (the `\uXXXX`
form is outside the model subset). -/
def escChar (c : Char) : Option Char :=
  if c = '"' then some '"'
  else if c = '\\' then some '\\'
  else if c = '/' then some '/'
  else if c = 'b' then some '\x08'
  else if c = 'f' then some '\x0c'
  else if c = 'n' then some '\n'
  else if c = 'r' then some '\r'
  else if c = 't' then some '\t'
  else none

/-- Parse the remainder of a JSON string literal after its opening quote,
returning the decoded characters and the input after the closing quote.
Unescaped control characters are rejected, as in strict `json.loads`. -/
def parseStringRest : Str → Option (Str × Str)
  | [] => none
  | '"' :: r => some ([], r)
  | '\\' :: [] => none
  | '\\' :: e :: r =>
    match escChar e with
    | none => none
    | some ec =>
      match parseStringRest r with
      | none => none
      | some (t, rest) => some (ec :: t, rest)
  | c :: r =>
    if c.toNat < 32 then none
    else
      match parseStringRest r with
      | none => none
      | some (t, rest) => some (c :: t, rest)

/-- Decimal value of a digit string. -/
def digitsToNat (ds : Str) : Nat := ds.foldl (fun a c => a * 10 + (c.toNat - 48)) 0

/-- Parse a JSON number (integers only: an optional minus sign and digits
with no superfluous leading zero; a following `.`/`e`/`E` would start a
float, which is outside the model subset). -/
def parseNumRest (s : Str) : Option (JVal × Str) :=
  let negAndBody : Bool × Str := match s with | '-' :: t => (true, t) | _ => (false, s)
  let ds := negAndBody.2.takeWhile Char.isDigit
  let rest := negAndBody.2.dropWhile Char.isDigit
  if ds = [] then none
  else
    match ds with
    | '0' :: _ :: _ => none
    | _ =>
      match rest with
      | '.' :: _ => none
      | 'e' :: _ => none
      | 'E' :: _ => none
      | _ =>
        let n : Int := Int.ofNat (digitsToNat ds)
        some (JVal.num (if negAndBody.1 then -n else n), rest)

/-- Collapse parsed object members into a Python dict: later duplicate keys
overwrite the value at the position of the first occurrence, exactly as
`json.loads` builds its dicts. -/
def dictOfMembers (ms : List (Str × JVal)) : List (Str × JVal) :=
  ms.foldl (fun acc kv => dictSet acc kv.1 kv.2) []

mutual

/-- Parse one JSON value; fuel-driven recursive descent. -/
def parseVal : Nat → Str → Option (JVal × Str)
  | 0, _ => none
  | f + 1, s =>
    match skipWs s with
    | [] => none
    | c :: r =>
      if c = '\x7b' then
        match skipWs r with
        | '\x7d' :: r2 => some (JVal.obj [], r2)
        | _ =>
          match parseObjMembers f r with
          | none => none
          | some (ms, rest) => some (JVal.obj (dictOfMembers ms), rest)
      else if c = '[' then
        match skipWs r with
        | ']' :: r2 => some (JVal.arr [], r2)
        | _ =>
          match parseArrElems f r with
          | none => none
          | some (vs, rest) => some (JVal.arr vs, rest)
      else if c = '"' then
        match parseStringRest r with
        | none => none
        | some (t, rest) => some (JVal.str t, rest)
      else if c = 't' then
        match r with
        | 'r' :: 'u' :: 'e' :: rest => some (JVal.bool true, rest)
        | _ => none
      else if c = 'f' then
        match r with
        | 'a' :: 'l' :: 's' :: 'e' :: rest => some (JVal.bool false, rest)
        | _ => none
      else if c = 'n' then
        match r with
        | 'u' :: 'l' :: 'l' :: rest => some (JVal.null, rest)
        | _ => none
      else parseNumRest (c :: r)

/-- Parse the elements of a non-empty JSON array after its `[`. -/
def parseArrElems : Nat → Str → Option (List JVal × Str)
  | 0, _ => none
  | f + 1, s =>
    match parseVal f s with
    | none => none
    | some (v, rest) =>
      match skipWs rest with
      | ']' :: r2 => some ([v], r2)
      | ',' :: r2 =>
        match parseArrElems f r2 with
        | none => none
        | some (vs, r3) => some (v :: vs, r3)
      | _ => none

/-- Parse the members of a non-empty JSON object after its opening brace. -/
def parseObjMembers : Nat → Str → Option (List (Str × JVal) × Str)
  | 0, _ => none
  | f + 1, s =>
    match skipWs s with
    | '"' :: r =>
      match parseStringRest r with
      | none => none
      | some (k, r2) =>
        match skipWs r2 with
        | ':' :: r3 =>
          match parseVal f r3 with
          | none => none
          | some (v, r4) =>
            match skipWs r4 with
            | '\x7d' :: r5 => some ([(k, v)], r5)
            | ',' :: r5 =>
              match parseObjMembers f r5 with
              | none => none
              | some (ms, r6) => some ((k, v) :: ms, r6)
            | _ => none
        | _ => none
    | _ => none

end

/-- `json.loads`: parse one value, allow trailing whitespace only.  The fuel
`2 * length + 4` dominates the recursion depth, since at least one input
character is consumed per two nested calls. -/
def json_loads (s : Str) : Option JVal :=
  match parseVal (2 * s.length + 4) s with
  | none => none
  | some (v, rest) => if skipWs rest = [] then some v else none

/-! ### `json.dumps(data, ensure_ascii=False, indent=2)` -/

/-- Decimal digits of a natural number (fuel-driven so that it is structural;
`n + 1` units of fuel always suffice). -/
def natStrAux : Nat → Nat → Str
  | 0, _ => []
  | f + 1, n => if n < 10 then [Nat.digitChar n] else natStrAux f (n / 10) ++ [Nat.digitChar (n % 10)]

/-- Python `str(n)` for a natural number. -/
def natStr (n : Nat) : Str := natStrAux (n + 1) n

/-- Python `str(i)` for an integer. -/
def intStr : Int → Str
  | Int.ofNat n => natStr n
  | Int.negSucc n => '-' :: natStr (n + 1)

/-- An indentation run of spaces. -/
def spaces : Nat → Str
  | 0 => []
  | n + 1 => ' ' :: spaces n

/-- How `json.dumps` with `ensure_ascii=False` emits one string character:
escape the quote, backslash and control characters, pass everything else
(including non-ASCII) through unescaped. -/
def dumpChar (c : Char) : Str :=
  if c = '"' then ['\\', '"']
  else if c = '\\' then ['\\', '\\']
  else if c = '\n' then ['\\', 'n']
  else if c = '\r' then ['\\', 'r']
  else if c = '\t' then ['\\', 't']
  else if c = '\x08' then ['\\', 'b']
  else if c = '\x0c' then ['\\', 'f']
  else if c.toNat < 32 then ['\\', 'u', '0', '0', Nat.digitChar (c.toNat / 16), Nat.digitChar (c.toNat % 16)]
  else [c]

/-- JSON string literal output. -/
def dumpStr (s : Str) : Str := '"' :: s.foldr (fun c acc => dumpChar c ++ acc) ['"']

mutual

/-- Serialize a value at the given indentation level, in the layout of
`json.dumps(..., indent=2)`: each container element on its own line, two
more spaces per level, `": "` after keys, `,` between items. -/
def dumpVal : Nat → Nat → JVal → Str
  | 0, _, _ => []
  | f + 1, ind, v =>
    match v with
    | JVal.null => "null".data
    | JVal.bool true => "true".data
    | JVal.bool false => "false".data
    | JVal.num n => intStr n
    | JVal.str s => dumpStr s
    | JVal.arr [] => "[]".data
    | JVal.arr (x :: xs) =>
      '[' :: '\n' :: (spaces (ind + 2) ++ dumpVal f (ind + 2) x ++ dumpListRest f (ind + 2) xs
        ++ '\n' :: (spaces ind ++ [']']))
    | JVal.obj [] => ['\x7b', '\x7d']
    | JVal.obj (m :: ms) =>
      '\x7b' :: '\n' :: (spaces (ind + 2) ++ dumpStr m.1 ++ ':' :: ' ' :: dumpVal f (ind + 2) m.2
        ++ dumpMembersRest f (ind + 2) ms ++ '\n' :: (spaces ind ++ ['\x7d']))

/-- Serialize the remaining elements of an array. -/
def dumpListRest : Nat → Nat → List JVal → Str
  | 0, _, _ => []
  | _ + 1, _, [] => []
  | f + 1, ind, x :: xs => ',' :: '\n' :: (spaces ind ++ dumpVal f ind x ++ dumpListRest f ind xs)

/-- Serialize the remaining members of an object. -/
def dumpMembersRest : Nat → Nat → List (Str × JVal) → Str
  | 0, _, _ => []
  | _ + 1, _, [] => []
  | f + 1, ind, m :: ms =>
    ',' :: '\n' :: (spaces ind ++ dumpStr m.1 ++ ':' :: ' ' :: dumpVal f ind m.2 ++ dumpMembersRest f ind ms)

end

/-- Nesting-depth budget of the printer, standing in for the Python
interpreter recursion limit that bounds `json.dumps` itself. -/
def dumpRecLimit : Nat := 1000

/-- `json.dumps(data, ensure_ascii=False, indent=2)`. -/
def json_dumps (v : JVal) : Str := dumpVal dumpRecLimit 0 v

/-! ## The patcher: `patch_xmrig_config_inplace` (automatic.py lines 32-65) -/

/-- The dict key `"pools"`. -/
def poolsKey : Str := "pools".data

/-- The dict key `"user"`. -/
def userKey : Str := "user".data

/-- Python `s[-28:]`: the last 28 characters (the whole string if shorter). -/
def lastN (n : Nat) (s : Str) : Str := s.drop (s.length - n)

/-- The preview line of automatic.py line 56 (also line 156):
`f"pools[{i}].user: ...{u[-28:]}  →  ...{new_u[-28:]}"`. -/
def previewLine (i : Nat) (u newU : Str) : Str :=
  "pools[".data ++ natStr i ++ "].user: ...".data ++ lastN 28 u ++
    "  →  ...".data ++ lastN 28 newU

/-- The body of the loop at automatic.py lines 50-56 on one dict pool entry:
`u = pool.get("user")`, skip a missing or non-string `user` and a `user`
without `.`, and otherwise rewrite `user` in place when the replacement
differs, reporting the increment of the change counter and the preview line
emitted. -/
def processUser (sol : Str) (i : Nat) (f : List (Str × JVal)) : JVal × Nat × List Str :=
  match dictGet f userKey with
  | some (JVal.str u) =>
    if '.' ∈ u then
      if replace_worker_part u sol ≠ u then
        (JVal.obj (dictSet f userKey (JVal.str (replace_worker_part u sol))), 1,
          [previewLine i u (replace_worker_part u sol)])
      else (JVal.obj f, 0, [])
    else (JVal.obj f, 0, [])
  | _ => (JVal.obj f, 0, [])

/-- One iteration of the loop at automatic.py lines 47-56 on one pool entry:
non-dict entries are skipped (line 48), dict entries are handled by
`processUser`. -/
def processPool (sol : Str) (i : Nat) (p : JVal) : JVal × Nat × List Str :=
  match p with
  | JVal.obj f => processUser sol i f
  | _ => (p, 0, [])

/-- The whole loop of automatic.py lines 47-56: the rewritten pool list, the
final change counter and the accumulated preview lines, with `i` the index
`enumerate` starts from. -/
def processPools (sol : Str) : List JVal → Nat → List JVal × Nat × List Str
  | [], _ => ([], 0, [])
  | p :: rest, i =>
    ((processPool sol i p).1 :: (processPools sol rest (i + 1)).1,
     (processPool sol i p).2.1 + (processPools sol rest (i + 1)).2.1,
     (processPool sol i p).2.2 ++ (processPools sol rest (i + 1)).2.2)

/-- The message of the `ValueError` raised at automatic.py line 42. -/
def schemaMsg : Str := "このJSONに \"pools\": [...] が見つかりませんでした。".data

/-- Exceptions a patch invocation can raise before writing anything:
`json.JSONDecodeError` from `json.loads`, `AttributeError` from calling
`.get` on a non-dict document, and the `ValueError` of line 42 (the schema
error, carrying its message). -/
inductive PErr : Type where
  | parseError : PErr
  | attrError : PErr
  | schemaError : Str → PErr

/-- Lines 40-56 of `patch_xmrig_config_inplace` on a mapping document:
`pools = data.get("pools", None)`, the `raise ValueError` of line 42 when
that is not a list or is empty, then the rewrite loop.  Returns the change
counter, the preview lines and the mutated document (the same dict with its
`pools` entry replaced by the rewritten list, everything else untouched). -/
def patchPools (fields : List (Str × JVal)) (sol : Str) :
    Except PErr (Nat × List Str × JVal) :=
  match dictGet fields poolsKey with
  | some (JVal.arr pools) =>
    if pools.length = 0 then Except.error (PErr.schemaError schemaMsg)
    else
      Except.ok ((processPools sol pools 0).2.1, (processPools sol pools 0).2.2,
        JVal.obj (dictSet fields poolsKey (JVal.arr (processPools sol pools 0).1)))
  | _ => Except.error (PErr.schemaError schemaMsg)

/-- Lines 39-56 of `patch_xmrig_config_inplace` on an already-parsed
document: `data.get(...)` raises `AttributeError` when the document is not a
dict; a dict document is handled by `patchPools`. -/
def patchDoc (data : JVal) (sol : Str) : Except PErr (Nat × List Str × JVal) :=
  match data with
  | JVal.obj fields => patchPools fields sol
  | _ => Except.error PErr.attrError

/-- The result of one successful `patch_xmrig_config_inplace` call: the
returned tuple `(changed, in_path, backup_path, preview)` plus the ordered
list of filesystem writes the call performed. -/
structure PatchReport : Type where
  changed : Nat
  out_path : Str
  backup_path : Str
  preview : List Str
  writes : List (Str × Str)

/-- automatic.py line 59: `in_path.with_suffix(in_path.suffix + ".bak")`.
Because the new suffix extends the old one, this always appends `".bak"` to
the path (for any path with a non-empty final component). -/
def backupPathOf (p : Str) : Str := p ++ ".bak".data

/-- `patch_xmrig_config_inplace` (automatic.py lines 32-65) after the parse
of line 39, where `fileText` is the content of `in_path`: transform, then
write the backup (line 60, re-reading the still-unchanged original) followed
by the overwrite of `in_path` with the re-serialized document (line 63).
An error raised at lines 40-42 aborts the call before either write. -/
def patchText (in_path : Str) (fileText : Str) (sol_addr : Str) (data : JVal) :
    Except PErr PatchReport :=
  match patchDoc data sol_addr with
  | Except.error e => Except.error e
  | Except.ok (changed, lines, data2) =>
    Except.ok ⟨changed, in_path, backupPathOf in_path, lines,
      [(backupPathOf in_path, fileText), (in_path, json_dumps data2)]⟩

/-- The load step of `patch_xmrig_config_inplace`: `json.loads` of line 39,
then the rest of the pipeline on the parsed document. -/
def patch_xmrig_config_inplace (in_path : Str) (fileText : Str) (sol_addr : Str) :
    Except PErr PatchReport :=
  match json_loads fileText with
  | none => Except.error PErr.parseError
  | some data => patchText in_path fileText sol_addr data

/-! ## The read-only preview: `App.preview` (automatic.py lines 144-161) -/

/-- The body of the preview loop at automatic.py lines 150-156 on one dict
pool entry: the contribution of the entry to the count and the lines. -/
def previewUser (sol : Str) (i : Nat) (f : List (Str × JVal)) : Nat × List Str :=
  match dictGet f userKey with
  | some (JVal.str u) =>
    if '.' ∈ u then
      if replace_worker_part u sol ≠ u then (1, [previewLine i u (replace_worker_part u sol)])
      else (0, [])
    else (0, [])
  | _ => (0, [])

/-- One iteration of the preview loop at automatic.py lines 149-156:
non-dict entries contribute nothing. -/
def previewStep (sol : Str) (i : Nat) (p : JVal) : Nat × List Str :=
  match p with
  | JVal.obj f => previewUser sol i f
  | _ => (0, [])

/-- The whole preview loop: count and lines over a pool list. -/
def previewList (sol : Str) : List JVal → Nat → Nat × List Str
  | [], _ => (0, [])
  | p :: rest, i =>
    ((previewStep sol i p).1 + (previewList sol rest (i + 1)).1,
     (previewStep sol i p).2 ++ (previewList sol rest (i + 1)).2)

/-- The traversal of `App.preview` (automatic.py lines 145-156) on a parsed
document: `pools = data.get("pools", [])` (an `AttributeError`, caught by
the surrounding handler, if the document is not a dict — modelled as `none`),
iterate `pools if isinstance(pools, list) else []`, and collect the count
and the preview lines.  It builds no new document and performs no write. -/
def previewPools (fields : List (Str × JVal)) (sol : Str) : Nat × List Str :=
  previewList sol
    (match (dictGet fields poolsKey).getD (JVal.arr []) with
     | JVal.arr xs => xs
     | _ => []) 0

/-- The `App.preview` traversal on a parsed document: `none` models the
`AttributeError` (caught by the surrounding handler) on a non-dict
document. -/
def App.previewScan (data : JVal) (sol : Str) : Option (Nat × List Str) :=
  match data with
  | JVal.obj fields => some (previewPools fields sol)
  | _ => none

/-! ## Small helpers used only to state claims -/

/-- Whether one string occurs inside another (used to state that the schema
error message names the `"pools"` field). -/
def startsWithStr : Str → Str → Bool
  | _, [] => true
  | [], _ :: _ => false
  | a :: as, b :: bs => a == b && startsWithStr as bs

/-- Substring occurrence test. -/
def containsStr : Str → Str → Bool
  | [], n => n.isEmpty
  | h :: t, n => startsWithStr (h :: t) n || containsStr t n

/-- Whether a patch result is the line-42 schema error. -/
def raisesSchemaError (r : Except PErr PatchReport) : Bool :=
  match r with
  | Except.error (PErr.schemaError _) => true
  | _ => false

/-- The `user` field of the first pool entry of a document, when present. -/
def firstUser (d : JVal) : Option Str :=
  match d with
  | JVal.obj fs =>
    match dictGet fs poolsKey with
    | some (JVal.arr (p :: _)) =>
      match p with
      | JVal.obj f =>
        match dictGet f userKey with
        | some (JVal.str u) => some u
        | _ => none
      | _ => none
    | _ => none
  | _ => none

/-! ## Helper lemmas -/

theorem dropWhile_append_of_all {p : Char → Bool} {l1 l2 : Str} (h : ∀ a ∈ l1, p a = true) :
    List.dropWhile p (l1 ++ l2) = List.dropWhile p l2 := by
  induction l1 with
  | nil => rfl
  | cons a t ih =>
    rw [List.cons_append, List.dropWhile_cons, if_pos (h a (List.mem_cons_self a t))]
    exact ih (fun b hb => h b (List.mem_cons_of_mem a hb))

theorem mem_dropWhile_of_neg {p : Char → Bool} {c : Char} {l : Str} (hm : c ∈ l)
    (hp : p c = false) : c ∈ List.dropWhile p l := by
  induction l with
  | nil => exact absurd hm (List.not_mem_nil c)
  | cons a t ih =>
    rw [List.dropWhile_cons]
    by_cases ha : p a = true
    · rw [if_pos ha]
      rcases List.mem_cons.mp hm with rfl | hmt
      · rw [hp] at ha; exact absurd ha (by simp)
      · exact ih hmt
    · rw [if_neg ha]
      exact hm

theorem dropWhile_ne_dot_eq_cons {l : Str} (h : '.' ∈ l) :
    ∃ t, List.dropWhile (fun c => c != '.') l = '.' :: t := by
  induction l with
  | nil => exact absurd h (List.not_mem_nil '.')
  | cons a t ih =>
    by_cases ha : a = '.'
    · subst ha
      exact ⟨t, by rw [List.dropWhile_cons]; simp⟩
    · have hmt : '.' ∈ t := by
        rcases List.mem_cons.mp h with h1 | h1
        · exact absurd h1.symm ha
        · exact h1
      obtain ⟨t2, ht2⟩ := ih hmt
      refine ⟨t2, ?_⟩
      rw [List.dropWhile_cons, if_pos (by simp [ha]), ht2]

theorem mem_takeWhile_ne_dot {l : Str} {a : Char} (h : a ∈ List.takeWhile (fun c => c != '.') l) :
    a ≠ '.' := by
  have := List.mem_takeWhile_imp h
  simpa using this

/-- The no-dot branch of `replace_worker_part` is the identity. -/
theorem replace_worker_part_of_not_mem {s R : Str} (h : '.' ∉ s) :
    replace_worker_part s R = s := by
  unfold replace_worker_part
  rw [if_neg h]

/-- On a string split as `P ++ "." ++ S` with a dot-free `S` (the split at
the last dot), `replace_worker_part` keeps `P` exactly and replaces `S`. -/
theorem replace_worker_part_append {P S R : Str} (h : '.' ∉ S) :
    replace_worker_part (P ++ '.' :: S) R = P ++ '.' :: R := by
  have hmem : '.' ∈ P ++ '.' :: S := List.mem_append.mpr (Or.inr (List.mem_cons_self _ _))
  unfold replace_worker_part
  rw [if_pos hmem]
  have h1 : (P ++ '.' :: S).reverse = S.reverse ++ '.' :: P.reverse := by
    rw [List.reverse_append, List.reverse_cons, List.append_assoc]
    rfl
  have h2 : List.dropWhile (fun c => c != '.') (S.reverse ++ '.' :: P.reverse) =
      '.' :: P.reverse := by
    rw [dropWhile_append_of_all (fun a ha => ?_), List.dropWhile_cons]
    · simp
    · have : a ≠ '.' := fun hEq => h (hEq ▸ List.mem_reverse.mp ha)
      simpa using this
  rw [h1, h2]
  simp

/-- Every string containing a dot splits at its last dot: `u = P ++ "." ++ S`
with `S` dot-free, and `replace_worker_part` rewrites it to `P ++ "." ++ R`. -/
theorem replace_worker_part_shape {u : Str} (h : '.' ∈ u) (R : Str) :
    ∃ P S, u = P ++ '.' :: S ∧ '.' ∉ S ∧ replace_worker_part u R = P ++ '.' :: R := by
  have hrev : '.' ∈ u.reverse := List.mem_reverse.mpr h
  obtain ⟨t, ht⟩ := dropWhile_ne_dot_eq_cons hrev
  refine ⟨t.reverse, (List.takeWhile (fun c => c != '.') u.reverse).reverse, ?_, ?_, ?_⟩
  · conv_lhs => rw [← List.reverse_reverse u, ← List.takeWhile_append_dropWhile
      (p := fun c => c != '.') (l := u.reverse)]
    rw [ht, List.reverse_append, List.reverse_cons, List.append_assoc]
    rfl
  · intro hmem
    exact mem_takeWhile_ne_dot (List.mem_reverse.mp hmem) rfl
  · unfold replace_worker_part
    rw [if_pos h, ht]
    simp

/-- C1: `replace_worker_part` splits its input at the last `.` only: for any
decomposition `P ++ "." ++ S` with dot-free `S`, the result is exactly
`P ++ "." ++ R` with `P` preserved character for character (even when `P`
contains dots); every input containing a dot admits such a decomposition;
and an input without a dot is returned unchanged. -/
theorem replace_worker_part_spec :
    (∀ P S R : Str, '.' ∉ S → replace_worker_part (P ++ '.' :: S) R = P ++ '.' :: R) ∧
    (∀ s : Str, '.' ∈ s → ∃ P S, s = P ++ '.' :: S ∧ '.' ∉ S) ∧
    (∀ s R : Str, '.' ∉ s → replace_worker_part s R = s) := by
  refine ⟨fun P S R h => replace_worker_part_append h, fun s h => ?_,
    fun s R h => replace_worker_part_of_not_mem h⟩
  obtain ⟨P, S, h1, h2, _⟩ := replace_worker_part_shape h []
  exact ⟨P, S, h1, h2⟩

/-- Witness for C1 at concrete inputs, including a prefix containing a dot. -/
theorem replace_worker_part_spec_witness :
    replace_worker_part ("wallet.abc.old".data) ("NEW".data) = "wallet.abc.NEW".data ∧
    replace_worker_part ("nodot".data) ("NEW".data) = "nodot".data := by
  constructor
  · exact replace_worker_part_spec.1 ("wallet.abc".data) ("old".data) ("NEW".data) (by decide)
  · exact replace_worker_part_spec.2.2 ("nodot".data) ("NEW".data) (by decide)

/-- Unfolding of the validator into its five conditions. -/
theorem looks_like_solana_address_iff (s : Str) :
    looks_like_solana_address s = true ↔
      (32 ≤ (pyStrip s).length ∧ (pyStrip s).length ≤ 44 ∧
        (pyStrip s).all isBase58Char = true) := by
  simp only [looks_like_solana_address]
  constructor
  · intro h
    by_cases h1 : 32 ≤ (pyStrip s).length ∧ (pyStrip s).length ≤ 44
    · by_cases h2 : pyStrip s ≠ [] ∧ (pyStrip s).all isBase58Char = true
      · exact ⟨h1.1, h1.2, h2.2⟩
      · rw [if_neg (not_not_intro h1), if_pos h2] at h
        exact absurd h (by simp)
    · rw [if_pos h1] at h
      exact absurd h (by simp)
  · rintro ⟨h32, h44, hall⟩
    have hne : pyStrip s ≠ [] := by
      have : 0 < (pyStrip s).length := by omega
      exact List.ne_nil_of_length_pos this
    rw [if_neg (not_not_intro ⟨h32, h44⟩), if_neg (not_not_intro ⟨hne, hall⟩)]

/-- A non-whitespace character of `s` survives `pyStrip`. -/
theorem mem_pyStrip {c : Char} {s : Str} (hm : c ∈ s) (hp : pyIsSpace c = false) :
    c ∈ pyStrip s := by
  unfold pyStrip
  exact List.mem_reverse.mpr (mem_dropWhile_of_neg
    (List.mem_reverse.mpr (mem_dropWhile_of_neg hm hp)) hp)

/-- C7: the validator trims surrounding whitespace and accepts exactly the
trimmed strings whose length lies in [32, 44] and whose characters all lie in
the base58 alphabet; in particular trimmed lengths 31 and 45 are rejected,
base58 strings of trimmed length 32 or 44 are accepted, and any string
containing `0`, `O`, `I` or `l` is rejected regardless of length. -/
theorem validator_spec :
    (∀ s : Str, looks_like_solana_address s = true ↔
      (32 ≤ (pyStrip s).length ∧ (pyStrip s).length ≤ 44 ∧
        (pyStrip s).all isBase58Char = true)) ∧
    (∀ s : Str, (pyStrip s).length = 31 → looks_like_solana_address s = false) ∧
    (∀ s : Str, (pyStrip s).length = 45 → looks_like_solana_address s = false) ∧
    (∀ s : Str, ((pyStrip s).length = 32 ∨ (pyStrip s).length = 44) →
      (pyStrip s).all isBase58Char = true → looks_like_solana_address s = true) ∧
    (∀ s : Str, ∀ c : Char, c ∈ s → (c = '0' ∨ c = 'O' ∨ c = 'I' ∨ c = 'l') →
      looks_like_solana_address s = false) := by
  refine ⟨looks_like_solana_address_iff, fun s hl => ?_, fun s hl => ?_,
    fun s hl hall => ?_, fun s c hm hc => ?_⟩
  · rw [Bool.eq_false_iff, Ne, looks_like_solana_address_iff]
    rintro ⟨h32, _, _⟩
    omega
  · rw [Bool.eq_false_iff, Ne, looks_like_solana_address_iff]
    rintro ⟨_, h44, _⟩
    omega
  · rw [looks_like_solana_address_iff]
    exact ⟨by omega, by omega, hall⟩
  · rw [Bool.eq_false_iff, Ne, looks_like_solana_address_iff]
    rintro ⟨_, _, hall⟩
    have hstrip : c ∈ pyStrip s := by
      refine mem_pyStrip hm ?_
      rcases hc with rfl | rfl | rfl | rfl <;> decide
    have hb : isBase58Char c = true := List.all_eq_true.mp hall c hstrip
    rcases hc with rfl | rfl | rfl | rfl <;> exact absurd hb (by decide)

/-- Witness for C7 at the boundary inputs. -/
theorem validator_spec_witness :
    looks_like_solana_address (List.replicate 32 '1') = true ∧
    looks_like_solana_address (List.replicate 44 'z') = true ∧
    looks_like_solana_address (List.replicate 31 '1') = false ∧
    looks_like_solana_address (List.replicate 45 'z') = false ∧
    looks_like_solana_address (List.replicate 40 '0') = false := by
  refine ⟨?_, ?_, ?_, ?_, ?_⟩
  · exact validator_spec.2.2.2.1 _ (Or.inl (by decide)) (by decide)
  · exact validator_spec.2.2.2.1 _ (Or.inr (by decide)) (by decide)
  · exact validator_spec.2.1 _ (by decide)
  · exact validator_spec.2.2.1 _ (by decide)
  · exact validator_spec.2.2.2.2 _ '0' (by decide) (Or.inl rfl)

/-- C8: the validator is total on strings: on every input it returns one of
the two booleans (in the embedding it is a total function into `Bool`, with
no exceptional outcome in its type). -/
theorem validator_total (s : Str) :
    looks_like_solana_address s = true ∨ looks_like_solana_address s = false := by
  cases h : looks_like_solana_address s
  · right; rfl
  · left; rfl

/-! ## Patcher theorems -/

/-- Appending `".bak"` never returns the original path. -/
theorem backupPathOf_ne (p : Str) : backupPathOf p ≠ p := by
  unfold backupPathOf
  intro h
  have := congrArg List.length h
  simp [List.length_append] at this

/-- Equation lemma: a failed parse makes the patch invocation raise the
parse error. -/
theorem patch_eq_parseError {p text sol : Str} (hl : json_loads text = none) :
    patch_xmrig_config_inplace p text sol = Except.error PErr.parseError := by
  unfold patch_xmrig_config_inplace
  rw [hl]

/-- Equation lemma: a successful parse hands the document to the rest of the
pipeline. -/
theorem patch_eq_of_loads {p text sol : Str} {data : JVal}
    (hl : json_loads text = some data) :
    patch_xmrig_config_inplace p text sol = patchText p text sol data := by
  unfold patch_xmrig_config_inplace
  rw [hl]

/-- Equation lemma: a transform error propagates out of `patchText`. -/
theorem patchText_eq_error {p text sol : Str} {data : JVal} {e : PErr}
    (hp : patchDoc data sol = Except.error e) :
    patchText p text sol data = Except.error e := by
  unfold patchText
  rw [hp]

/-- Equation lemma: a successful transform yields the report with its two
writes in order. -/
theorem patchText_eq_ok {p text sol : Str} {data : JVal} {c : Nat} {lines : List Str}
    {d2 : JVal} (hp : patchDoc data sol = Except.ok (c, lines, d2)) :
    patchText p text sol data =
      Except.ok ⟨c, p, backupPathOf p, lines,
        [(backupPathOf p, text), (p, json_dumps d2)]⟩ := by
  unfold patchText
  rw [hp]

/-- Anatomy of every successful patch invocation: the parsed document, the
transform result, and the report with its two writes in order. -/
theorem patch_ok_decomp (p text sol : Str) (r : PatchReport)
    (h : patch_xmrig_config_inplace p text sol = Except.ok r) :
    ∃ data c lines d2, json_loads text = some data ∧
      patchDoc data sol = Except.ok (c, lines, d2) ∧
      r = ⟨c, p, backupPathOf p, lines, [(backupPathOf p, text), (p, json_dumps d2)]⟩ := by
  cases hl : json_loads text with
  | none =>
    rw [patch_eq_parseError hl] at h
    exact absurd h (by simp)
  | some data =>
    rw [patch_eq_of_loads hl] at h
    cases hp : patchDoc data sol with
    | error e =>
      rw [patchText_eq_error hp] at h
      exact absurd h (by simp)
    | ok t =>
      obtain ⟨c, lines, d2⟩ := t
      rw [patchText_eq_ok hp] at h
      exact ⟨data, c, lines, d2, rfl, hp, (Except.ok.inj h).symm⟩

/-- C2: every patch invocation that reaches the write phase (returns a
report) performs exactly two writes, the first of which stores the
byte-for-byte pre-patch content at the backup path, before the second
overwrites the (distinct) primary path; nothing in the statement constrains
the change counter, so this holds in particular when it is zero. -/
theorem patch_backup_before_overwrite (p text sol : Str) (r : PatchReport)
    (h : patch_xmrig_config_inplace p text sol = Except.ok r) :
    r.backup_path = backupPathOf p ∧ r.out_path = p ∧ r.backup_path ≠ r.out_path ∧
    ∃ newText, r.writes = [(r.backup_path, text), (r.out_path, newText)] := by
  obtain ⟨data, c, lines, d2, _, _, hr⟩ := patch_ok_decomp p text sol r h
  subst hr
  exact ⟨rfl, rfl, backupPathOf_ne p, json_dumps d2, rfl⟩

/-- The zero-change input used for the C2 and C10 witnesses: a single pool
whose `user` has no dot, so nothing is rewritten. -/
def zcText : Str := "\x7b\"pools\": [\x7b\"user\": \"A\"\x7d]\x7d".data

/-- The document `json.loads` builds from `zcText`. -/
def zcDoc : JVal := JVal.obj [(poolsKey, JVal.arr [JVal.obj [(userKey, JVal.str ("A".data))]])]

/-- The report of patching `zcText` (zero changes, both writes performed). -/
def zcReport : PatchReport :=
  ⟨0, "config.json".data, backupPathOf ("config.json".data), [],
    [(backupPathOf ("config.json".data), zcText), ("config.json".data, json_dumps zcDoc)]⟩

/-- Witness for C2 at a concrete zero-change invocation. -/
theorem patch_backup_before_overwrite_witness :
    zcReport.backup_path = backupPathOf ("config.json".data) ∧
    zcReport.out_path = "config.json".data ∧
    zcReport.backup_path ≠ zcReport.out_path ∧
    ∃ newText, zcReport.writes = [(zcReport.backup_path, zcText), (zcReport.out_path, newText)] :=
  patch_backup_before_overwrite ("config.json".data) zcText ("R".data) zcReport rfl

/-- Whether a `pools` lookup fails the line-41 check: absent, not a list, or
an empty list. -/
def badPools : Option JVal → Bool
  | some (JVal.arr xs) => xs.isEmpty
  | some _ => true
  | none => true

/-- A mapping document failing the pools check makes `patchDoc` raise the
line-42 schema error. -/
theorem patchDoc_error_of_badPools {fields : List (Str × JVal)} {sol : Str}
    (hb : badPools (dictGet fields poolsKey) = true) :
    patchDoc (JVal.obj fields) sol = Except.error (PErr.schemaError schemaMsg) := by
  show patchPools fields sol = Except.error (PErr.schemaError schemaMsg)
  unfold patchPools
  cases hg : dictGet fields poolsKey with
  | none => rfl
  | some v =>
    rw [hg] at hb
    cases v with
    | arr xs =>
      have hxs : xs = [] := by
        simpa [badPools, List.isEmpty_iff] using hb
      subst hxs
      rfl
    | null => rfl
    | bool b => rfl
    | num n => rfl
    | str s => rfl
    | obj ms => rfl

/-- C3 (amended): for every input document that parses to a mapping whose
`pools` field is missing, not a sequence, or an empty sequence, the patch
invocation raises the schema `ValueError` whose message names the `pools`
field, and returns no report — hence performs no write: no backup is created
and the primary path is not overwritten.  (For a parsed document that is not
a mapping the code instead dies earlier, with an `AttributeError` from
`data.get`, still before any write; see the counterexample.) -/
theorem patch_schema_error_mapping (p text sol : Str) (fields : List (Str × JVal))
    (hl : json_loads text = some (JVal.obj fields))
    (hb : badPools (dictGet fields poolsKey) = true) :
    patch_xmrig_config_inplace p text sol = Except.error (PErr.schemaError schemaMsg) ∧
    containsStr schemaMsg ("pools".data) = true := by
  refine ⟨?_, by decide⟩
  rw [patch_eq_of_loads hl, patchText_eq_error (@patchDoc_error_of_badPools fields sol hb)]

/-- Witness for C3 (amended) on the empty-pools document of the spec's
second end-to-end scenario. -/
theorem patch_schema_error_mapping_witness :
    patch_xmrig_config_inplace ("config.json".data) ("\x7b\"pools\": []\x7d".data) ("R".data) =
      Except.error (PErr.schemaError schemaMsg) ∧
    containsStr schemaMsg ("pools".data) = true :=
  patch_schema_error_mapping ("config.json".data) ("\x7b\"pools\": []\x7d".data) ("R".data)
    [(poolsKey, JVal.arr [])] rfl rfl

/-- The non-mapping document that refutes C3 as stated. -/
def schemaCexText : Str := "[\"x\"]".data

/-- C3 counterexample: the document `["x"]` has no `pools` field (it is not
even a mapping), yet the patch invocation raises `AttributeError` from
`data.get`, not the schema `ValueError`, so no error message naming the
expected field is produced. -/
theorem patch_schema_error_cex :
    json_loads schemaCexText = some (JVal.arr [JVal.str ("x".data)]) ∧
    patch_xmrig_config_inplace ("config.json".data) schemaCexText ("R".data) =
      Except.error PErr.attrError ∧
    raisesSchemaError (patch_xmrig_config_inplace ("config.json".data) schemaCexText ("R".data)) =
      false :=
  ⟨rfl, rfl, rfl⟩

/-- The spec's end-to-end scenario document. -/
def e2eText : Str :=
  "\x7b\"pools\":[\x7b\"user\":\"WALLET123.oldworker\"\x7d,\x7b\"user\":\"WALLET123.oldworker\"\x7d,\x7b\"user\":\"NOFIELD\"\x7d]\x7d".data

/-- The expected saved document of the end-to-end scenario: the first two
pool `user` fields rewritten, the third pool untouched. -/
def e2eExpected : JVal := JVal.obj [(poolsKey, JVal.arr
  [JVal.obj [(userKey, JVal.str ("WALLET123.NEWWORKER".data))],
   JVal.obj [(userKey, JVal.str ("WALLET123.NEWWORKER".data))],
   JVal.obj [(userKey, JVal.str ("NOFIELD".data))]])]

/-- C6: patching the scenario document with Replacement Value `NEWWORKER`
reports 2 changes and performs exactly two writes: the backup holding the
original document, then the primary path overwritten with the serialization
of the expected document (first two `user` fields `WALLET123.NEWWORKER`,
third pool unchanged). -/
theorem end_to_end_scenario :
    (patch_xmrig_config_inplace ("config.json".data) e2eText ("NEWWORKER".data)).map
        (fun r => (r.changed, r.writes)) =
      Except.ok (2, [(backupPathOf ("config.json".data), e2eText),
        ("config.json".data, json_dumps e2eExpected)]) := rfl

/-- C10: a successful patch invocation always rewrites the primary path with
the re-serialized document, also when the change counter is zero; and
concretely, serializing the zero-change document `zcDoc` back out produces
bytes different from the original single-line file, so a zero-change patch
can change the on-disk bytes. -/
theorem zero_change_still_overwrites :
    (∀ p text sol : Str, ∀ r : PatchReport,
      patch_xmrig_config_inplace p text sol = Except.ok r → r.changed = 0 →
      ∃ d2, r.writes = [(backupPathOf p, text), (p, json_dumps d2)]) ∧
    ((patch_xmrig_config_inplace ("config.json".data) zcText ("R".data)).map
        (fun r => (r.changed, r.writes)) =
      Except.ok (0, [(backupPathOf ("config.json".data), zcText),
        ("config.json".data, json_dumps zcDoc)]) ∧
    json_dumps zcDoc ≠ zcText) := by
  refine ⟨fun p text sol r h hzero => ?_, rfl, by decide⟩
  obtain ⟨data, c, lines, d2, _, _, hr⟩ := patch_ok_decomp p text sol r h
  subst hr
  exact ⟨d2, rfl⟩

/-- Witness for C10's universally quantified part at the concrete
zero-change invocation. -/
theorem zero_change_still_overwrites_witness :
    ∃ d2, zcReport.writes =
      [(backupPathOf ("config.json".data), zcText), ("config.json".data, json_dumps d2)] :=
  zero_change_still_overwrites.1 ("config.json".data) zcText ("R".data) zcReport rfl rfl

/-! ## Dict and loop lemmas -/

theorem dictGet_dictSet_self (fs : List (Str × JVal)) (k : Str) (v : JVal) :
    dictGet (dictSet fs k v) k = some v := by
  induction fs with
  | nil => simp [dictSet, dictGet]
  | cons kv rest ih =>
    obtain ⟨k2, v2⟩ := kv
    by_cases hk : k2 = k
    · simp [dictSet, dictGet, hk]
    · simp [dictSet, dictGet, hk, ih]

theorem dictGet_dictSet_ne (fs : List (Str × JVal)) (k k2 : Str) (v : JVal) (h : k2 ≠ k) :
    dictGet (dictSet fs k v) k2 = dictGet fs k2 := by
  induction fs with
  | nil => simp [dictSet, dictGet, Ne.symm h]
  | cons kv rest ih =>
    obtain ⟨k3, v3⟩ := kv
    by_cases hk : k3 = k
    · subst hk
      simp [dictSet, dictGet, Ne.symm h]
    · simp [dictSet, dictGet, hk, ih]

theorem dictSet_dictSet_self (fs : List (Str × JVal)) (k : Str) (v w : JVal) :
    dictSet (dictSet fs k v) k w = dictSet fs k w := by
  induction fs with
  | nil => simp [dictSet]
  | cons kv rest ih =>
    obtain ⟨k2, v2⟩ := kv
    by_cases hk : k2 = k
    · simp [dictSet, hk]
    · simp [dictSet, hk, ih]

theorem processPool_obj (sol : Str) (i : Nat) (f : List (Str × JVal)) :
    processPool sol i (JVal.obj f) = processUser sol i f := rfl

theorem processUser_no_user {sol : Str} {i : Nat} {f : List (Str × JVal)}
    (hu : dictGet f userKey = none) :
    processUser sol i f = (JVal.obj f, 0, []) := by
  unfold processUser
  rw [hu]

theorem processUser_not_str {sol : Str} {i : Nat} {f : List (Str × JVal)} {v : JVal}
    (hu : dictGet f userKey = some v) (hv : ∀ u, v ≠ JVal.str u) :
    processUser sol i f = (JVal.obj f, 0, []) := by
  unfold processUser
  rw [hu]
  cases v with
  | str u => exact absurd rfl (hv u)
  | null => rfl
  | bool b => rfl
  | num n => rfl
  | arr xs => rfl
  | obj ms => rfl

theorem processUser_no_dot {sol : Str} {i : Nat} {f : List (Str × JVal)} {u : Str}
    (hu : dictGet f userKey = some (JVal.str u)) (hd : '.' ∉ u) :
    processUser sol i f = (JVal.obj f, 0, []) := by
  unfold processUser
  simp only [hu]
  rw [if_neg hd]

theorem processUser_same {sol : Str} {i : Nat} {f : List (Str × JVal)} {u : Str}
    (hu : dictGet f userKey = some (JVal.str u)) (hd : '.' ∈ u)
    (heq : replace_worker_part u sol = u) :
    processUser sol i f = (JVal.obj f, 0, []) := by
  unfold processUser
  simp only [hu]
  rw [if_pos hd, if_neg (not_not_intro heq)]

theorem processUser_changed {sol : Str} {i : Nat} {f : List (Str × JVal)} {u : Str}
    (hu : dictGet f userKey = some (JVal.str u)) (hd : '.' ∈ u)
    (hne : replace_worker_part u sol ≠ u) :
    processUser sol i f =
      (JVal.obj (dictSet f userKey (JVal.str (replace_worker_part u sol))), 1,
        [previewLine i u (replace_worker_part u sol)]) := by
  unfold processUser
  simp only [hu]
  rw [if_pos hd, if_pos hne]

theorem previewUser_eq_processUser (sol : Str) (i : Nat) (f : List (Str × JVal)) :
    previewUser sol i f = ((processUser sol i f).2.1, (processUser sol i f).2.2) := by
  unfold previewUser processUser
  cases hu : dictGet f userKey with
  | none => rfl
  | some v =>
    cases v with
    | str u =>
      by_cases hd : '.' ∈ u
      · by_cases hne : replace_worker_part u sol ≠ u
        · simp [hd, hne]
        · simp [hd, hne]
      · simp [hd]
    | null => rfl
    | bool b => rfl
    | num n => rfl
    | arr xs => rfl
    | obj ms => rfl

theorem previewStep_eq_processPool (sol : Str) (i : Nat) (p : JVal) :
    previewStep sol i p = ((processPool sol i p).2.1, (processPool sol i p).2.2) := by
  cases p with
  | obj f => exact previewUser_eq_processUser sol i f
  | null => rfl
  | bool b => rfl
  | num n => rfl
  | str s => rfl
  | arr xs => rfl

theorem previewList_eq_processPools (sol : Str) :
    ∀ (pools : List JVal) (i : Nat),
      previewList sol pools i = ((processPools sol pools i).2.1, (processPools sol pools i).2.2)
  | [], _ => rfl
  | p :: rest, i => by
    have ih := previewList_eq_processPools sol rest (i + 1)
    simp only [previewList, processPools, previewStep_eq_processPool, ih]

/-- C5: for every document on which the save traversal succeeds, the
read-only preview traversal computes the same change count and byte-for-byte
the same preview lines; the preview builds no document and performs no write
(its result type contains neither). -/
theorem preview_agrees_with_patch (data : JVal) (sol : Str) (n : Nat) (lines : List Str)
    (d2 : JVal) (h : patchDoc data sol = Except.ok (n, lines, d2)) :
    App.previewScan data sol = some (n, lines) := by
  cases data with
  | obj fields =>
    have h2 : patchPools fields sol = Except.ok (n, lines, d2) := h
    unfold patchPools at h2
    split at h2
    · next pools heq =>
      split at h2
      · exact absurd h2 (by simp)
      · next hlen =>
        simp only [Except.ok.injEq, Prod.mk.injEq] at h2
        obtain ⟨h3, h4, h5⟩ := h2
        subst h3
        subst h4
        show some (previewPools fields sol) = _
        unfold previewPools
        rw [heq]
        have hxs : (match (some (JVal.arr pools)).getD (JVal.arr []) with
            | JVal.arr xs => xs
            | _ => ([] : List JVal)) = pools := rfl
        rw [hxs, previewList_eq_processPools]
    · exact absurd h2 (by simp)
  | null => rw [show patchDoc JVal.null sol = Except.error PErr.attrError from rfl] at h
            exact absurd h (by simp)
  | bool b => rw [show patchDoc (JVal.bool b) sol = Except.error PErr.attrError from rfl] at h
              exact absurd h (by simp)
  | num m => rw [show patchDoc (JVal.num m) sol = Except.error PErr.attrError from rfl] at h
             exact absurd h (by simp)
  | str s2 => rw [show patchDoc (JVal.str s2) sol = Except.error PErr.attrError from rfl] at h
              exact absurd h (by simp)
  | arr xs => rw [show patchDoc (JVal.arr xs) sol = Except.error PErr.attrError from rfl] at h
              exact absurd h (by simp)

/-- The changed document used in the C5 and C4 witnesses. -/
def idemDoc : JVal := JVal.obj [(poolsKey, JVal.arr [JVal.obj [(userKey, JVal.str ("A.B".data))]])]

/-- `idemDoc` after one patch with Replacement Value `NEW`. -/
def idemDocPatched : JVal :=
  JVal.obj [(poolsKey, JVal.arr [JVal.obj [(userKey, JVal.str ("A.NEW".data))]])]

/-- Witness for C5 on a document with one change. -/
theorem preview_agrees_with_patch_witness :
    App.previewScan idemDoc ("NEW".data) =
      some (1, [previewLine 0 ("A.B".data) ("A.NEW".data)]) :=
  preview_agrees_with_patch idemDoc ("NEW".data) 1
    [previewLine 0 ("A.B".data) ("A.NEW".data)] idemDocPatched rfl

/-- The replacement result of a dotted string still contains a dot. -/
theorem dot_mem_replace {u : Str} {sol : Str} (hd : '.' ∈ u) :
    '.' ∈ replace_worker_part u sol := by
  obtain ⟨P, S, _, _, hres⟩ := replace_worker_part_shape hd sol
  rw [hres]
  exact List.mem_append.mpr (Or.inr (List.mem_cons_self _ _))

/-- For a dot-free Replacement Value, replacing twice is the same as
replacing once. -/
theorem replace_worker_part_idem {u sol : Str} (hs : '.' ∉ sol) (hd : '.' ∈ u) :
    replace_worker_part (replace_worker_part u sol) sol = replace_worker_part u sol := by
  obtain ⟨P, S, _, _, hres⟩ := replace_worker_part_shape hd sol
  rw [hres, replace_worker_part_append hs]

/-- For a dot-free Replacement Value, a second pass over an already-processed
pool entry changes nothing. -/
theorem processPool_second (sol : Str) (hs : '.' ∉ sol) (i : Nat) (p : JVal) :
    processPool sol i (processPool sol i p).1 = ((processPool sol i p).1, 0, []) := by
  cases p with
  | obj f =>
    cases hu : dictGet f userKey with
    | none =>
      rw [processPool_obj, processUser_no_user hu]
      exact processUser_no_user hu
    | some v =>
      cases v with
      | str u =>
        by_cases hd : '.' ∈ u
        · by_cases hne : replace_worker_part u sol ≠ u
          · rw [processPool_obj, processUser_changed hu hd hne]
            have hu2 : dictGet (dictSet f userKey (JVal.str (replace_worker_part u sol))) userKey
                = some (JVal.str (replace_worker_part u sol)) := dictGet_dictSet_self f userKey _
            have hd2 : '.' ∈ replace_worker_part u sol := dot_mem_replace hd
            have heq2 : replace_worker_part (replace_worker_part u sol) sol
                = replace_worker_part u sol := replace_worker_part_idem hs hd
            exact processUser_same hu2 hd2 heq2
          · rw [processPool_obj, processUser_same hu hd (not_not.mp hne)]
            exact processUser_same hu hd (not_not.mp hne)
        · rw [processPool_obj, processUser_no_dot hu hd]
          exact processUser_no_dot hu hd
      | null =>
        rw [processPool_obj, processUser_not_str hu (fun u h => JVal.noConfusion h)]
        exact processUser_not_str hu (fun u h => JVal.noConfusion h)
      | bool b =>
        rw [processPool_obj, processUser_not_str hu (fun u h => JVal.noConfusion h)]
        exact processUser_not_str hu (fun u h => JVal.noConfusion h)
      | num n2 =>
        rw [processPool_obj, processUser_not_str hu (fun u h => JVal.noConfusion h)]
        exact processUser_not_str hu (fun u h => JVal.noConfusion h)
      | arr xs =>
        rw [processPool_obj, processUser_not_str hu (fun u h => JVal.noConfusion h)]
        exact processUser_not_str hu (fun u h => JVal.noConfusion h)
      | obj ms =>
        rw [processPool_obj, processUser_not_str hu (fun u h => JVal.noConfusion h)]
        exact processUser_not_str hu (fun u h => JVal.noConfusion h)
  | null => rfl
  | bool b => rfl
  | num n2 => rfl
  | str s2 => rfl
  | arr xs => rfl

/-- For a dot-free Replacement Value, a second pass over an already-processed
pool list changes nothing. -/
theorem processPools_second (sol : Str) (hs : '.' ∉ sol) :
    ∀ (pools : List JVal) (i : Nat),
      processPools sol (processPools sol pools i).1 i = ((processPools sol pools i).1, 0, [])
  | [], _ => rfl
  | p :: rest, i => by
    have ih := processPools_second sol hs rest (i + 1)
    simp only [processPools]
    rw [processPool_second sol hs i p, ih]
    rfl

theorem processPools_length (sol : Str) :
    ∀ (pools : List JVal) (i : Nat), (processPools sol pools i).1.length = pools.length
  | [], _ => rfl
  | p :: rest, i => by
    simp only [processPools, List.length_cons]
    rw [processPools_length sol rest (i + 1)]

/-- Equation lemma: on a non-empty pools list the transform succeeds with the
loop results and the document with its pools entry replaced. -/
theorem patchPools_ok {fields : List (Str × JVal)} {sol : Str} {pools : List JVal}
    (hg : dictGet fields poolsKey = some (JVal.arr pools)) (hne : ¬ pools.length = 0) :
    patchPools fields sol = Except.ok ((processPools sol pools 0).2.1,
      (processPools sol pools 0).2.2,
      JVal.obj (dictSet fields poolsKey (JVal.arr (processPools sol pools 0).1))) := by
  unfold patchPools
  simp only [hg]
  rw [if_neg hne]

/-- C4 (amended): for every document and every Replacement Value that does
not contain a `.` character, applying the patch transform twice in
succession yields the document obtained by applying it once, and the second
application reports 0 changes (and an empty preview). -/
theorem patch_idempotent_of_no_dot (data : JVal) (sol : Str) (n : Nat) (lines : List Str)
    (d2 : JVal) (hs : '.' ∉ sol) (h : patchDoc data sol = Except.ok (n, lines, d2)) :
    patchDoc d2 sol = Except.ok (0, [], d2) := by
  cases data with
  | obj fields =>
    have h2 : patchPools fields sol = Except.ok (n, lines, d2) := h
    unfold patchPools at h2
    split at h2
    · next pools heq =>
      split at h2
      · exact absurd h2 (by simp)
      · next hlen =>
        simp only [Except.ok.injEq, Prod.mk.injEq] at h2
        obtain ⟨h3, h4, h5⟩ := h2
        subst h5
        show patchPools (dictSet fields poolsKey (JVal.arr (processPools sol pools 0).1)) sol = _
        have hlen2 : ¬ (processPools sol pools 0).1.length = 0 := by
          rw [processPools_length]
          exact hlen
        rw [patchPools_ok (dictGet_dictSet_self fields poolsKey _) hlen2,
          processPools_second sol hs pools 0, dictSet_dictSet_self]
    · exact absurd h2 (by simp)
  | null => rw [show patchDoc JVal.null sol = Except.error PErr.attrError from rfl] at h
            exact absurd h (by simp)
  | bool b => rw [show patchDoc (JVal.bool b) sol = Except.error PErr.attrError from rfl] at h
              exact absurd h (by simp)
  | num m => rw [show patchDoc (JVal.num m) sol = Except.error PErr.attrError from rfl] at h
             exact absurd h (by simp)
  | str s2 => rw [show patchDoc (JVal.str s2) sol = Except.error PErr.attrError from rfl] at h
              exact absurd h (by simp)
  | arr xs => rw [show patchDoc (JVal.arr xs) sol = Except.error PErr.attrError from rfl] at h
              exact absurd h (by simp)

/-- Witness for C4 (amended): patching `idemDoc` with the dot-free value
`NEW` gives `idemDocPatched`, and a second application reports 0 changes and
returns the same document. -/
theorem patch_idempotent_of_no_dot_witness :
    patchDoc idemDocPatched ("NEW".data) = Except.ok (0, [], idemDocPatched) :=
  patch_idempotent_of_no_dot idemDoc ("NEW".data) 1
    [previewLine 0 ("A.B".data) ("A.NEW".data)] idemDocPatched (by decide) rfl

/-- C4 counterexample: with the Replacement Value `X.Y` (which contains a
dot), patching the document with the single `user` `A.B` once yields `user`
`A.X.Y`, and the second application is not a no-op: it reports 1 change (not
0) and rewrites the `user` again, to `A.X.X.Y`. -/
theorem patch_idempotent_cex :
    ((patchDoc idemDoc ("X.Y".data)).bind (fun r => patchDoc r.2.2 ("X.Y".data))).map
        (fun r => r.1) = Except.ok 1 ∧
    (patchDoc idemDoc ("X.Y".data)).map (fun r => firstUser r.2.2) =
      Except.ok (some ("A.X.Y".data)) ∧
    ((patchDoc idemDoc ("X.Y".data)).bind (fun r => patchDoc r.2.2 ("X.Y".data))).map
        (fun r => firstUser r.2.2) = Except.ok (some ("A.X.X.Y".data)) ∧
    (1 : Nat) ≠ 0 ∧ ("A.X.X.Y".data : Str) ≠ "A.X.Y".data :=
  ⟨rfl, rfl, rfl, by decide, by decide⟩

/-- What one loop iteration can do to a pool entry: leave it untouched, or —
only for a dict entry whose `user` is a string containing `.` and whose
replacement differs — update exactly its `user` binding. -/
theorem processPool_frame (sol : Str) (i : Nat) (p : JVal) :
    (processPool sol i p).1 = p ∨
    ∃ f u, p = JVal.obj f ∧ dictGet f userKey = some (JVal.str u) ∧ '.' ∈ u ∧
      replace_worker_part u sol ≠ u ∧
      (processPool sol i p).1 =
        JVal.obj (dictSet f userKey (JVal.str (replace_worker_part u sol))) := by
  cases p with
  | obj f =>
    cases hu : dictGet f userKey with
    | none => left; rw [processPool_obj, processUser_no_user hu]
    | some v =>
      cases v with
      | str u =>
        by_cases hd : '.' ∈ u
        · by_cases hne : replace_worker_part u sol ≠ u
          · right
            exact ⟨f, u, rfl, hu, hd, hne,
              by rw [processPool_obj, processUser_changed hu hd hne]⟩
          · left; rw [processPool_obj, processUser_same hu hd (not_not.mp hne)]
        · left; rw [processPool_obj, processUser_no_dot hu hd]
      | null => left; rw [processPool_obj, processUser_not_str hu (fun u h => JVal.noConfusion h)]
      | bool b => left; rw [processPool_obj, processUser_not_str hu (fun u h => JVal.noConfusion h)]
      | num n2 => left; rw [processPool_obj, processUser_not_str hu (fun u h => JVal.noConfusion h)]
      | arr xs => left; rw [processPool_obj, processUser_not_str hu (fun u h => JVal.noConfusion h)]
      | obj ms => left; rw [processPool_obj, processUser_not_str hu (fun u h => JVal.noConfusion h)]
  | null => left; rfl
  | bool b => left; rfl
  | num n2 => left; rfl
  | str s2 => left; rfl
  | arr xs => left; rfl

theorem processPools_getElem (sol : Str) :
    ∀ (pools : List JVal) (i j : Nat),
      (processPools sol pools i).1[j]? = (pools[j]?).map (fun p => (processPool sol (i + j) p).1)
  | [], i, j => by simp [processPools]
  | p :: rest, i, 0 => by simp [processPools]
  | p :: rest, i, j + 1 => by
    have ih := processPools_getElem sol rest (i + 1) j
    simp only [processPools, List.getElem?_cons_succ]
    rw [ih]
    have harith : i + 1 + j = i + (j + 1) := by omega
    rw [harith]

/-- C9: a successful patch transform changes the loaded document only inside
the `pools` list: the result is the same mapping with its `pools` entry
replaced by an equally long list, every other top-level field reads the
same; and each pool entry is either preserved as it was or — exactly when it
is a mapping whose `user` value is a string containing `.` with a differing
replacement — is the same mapping with only its `user` binding rewritten,
every other field of the entry reading the same. -/
theorem patch_frame (data : JVal) (sol : Str) (n : Nat) (lines : List Str) (d2 : JVal)
    (h : patchDoc data sol = Except.ok (n, lines, d2)) :
    ∃ fields pools pools2,
      data = JVal.obj fields ∧
      dictGet fields poolsKey = some (JVal.arr pools) ∧
      d2 = JVal.obj (dictSet fields poolsKey (JVal.arr pools2)) ∧
      (∀ k, k ≠ poolsKey →
        dictGet (dictSet fields poolsKey (JVal.arr pools2)) k = dictGet fields k) ∧
      pools2.length = pools.length ∧
      (∀ (j : Nat) (p : JVal), pools[j]? = some p →
        pools2[j]? = some p ∨
        ∃ f u, p = JVal.obj f ∧ dictGet f userKey = some (JVal.str u) ∧ '.' ∈ u ∧
          replace_worker_part u sol ≠ u ∧
          pools2[j]? =
            some (JVal.obj (dictSet f userKey (JVal.str (replace_worker_part u sol)))) ∧
          (∀ k, k ≠ userKey →
            dictGet (dictSet f userKey (JVal.str (replace_worker_part u sol))) k =
              dictGet f k)) := by
  cases data with
  | obj fields =>
    have h2 : patchPools fields sol = Except.ok (n, lines, d2) := h
    unfold patchPools at h2
    split at h2
    · next pools heq =>
      split at h2
      · exact absurd h2 (by simp)
      · next hlen =>
        simp only [Except.ok.injEq, Prod.mk.injEq] at h2
        obtain ⟨h3, h4, h5⟩ := h2
        subst h5
        refine ⟨fields, pools, (processPools sol pools 0).1, rfl, heq, rfl,
          fun k hk => dictGet_dictSet_ne fields poolsKey k _ hk,
          processPools_length sol pools 0, fun j p hj => ?_⟩
        have hget := processPools_getElem sol pools 0 j
        rw [hj] at hget
        simp only [Option.map_some', Nat.zero_add] at hget
        rcases processPool_frame sol j p with hsame | ⟨f, u, hpf, hu, hd, hne, hres⟩
        · left
          rw [hget, hsame]
        · right
          exact ⟨f, u, hpf, hu, hd, hne, by rw [hget, hres],
            fun k hk => dictGet_dictSet_ne f userKey k _ hk⟩
    · exact absurd h2 (by simp)
  | null => rw [show patchDoc JVal.null sol = Except.error PErr.attrError from rfl] at h
            exact absurd h (by simp)
  | bool b => rw [show patchDoc (JVal.bool b) sol = Except.error PErr.attrError from rfl] at h
              exact absurd h (by simp)
  | num m => rw [show patchDoc (JVal.num m) sol = Except.error PErr.attrError from rfl] at h
             exact absurd h (by simp)
  | str s2 => rw [show patchDoc (JVal.str s2) sol = Except.error PErr.attrError from rfl] at h
              exact absurd h (by simp)
  | arr xs => rw [show patchDoc (JVal.arr xs) sol = Except.error PErr.attrError from rfl] at h
              exact absurd h (by simp)

/-- A document exercising every frame case: one changed pool entry with an
extra field, one non-mapping pool entry, and an extra top-level field. -/
def frameDoc : JVal := JVal.obj
  [(poolsKey, JVal.arr
    [JVal.obj [(userKey, JVal.str ("W.A".data)), ("rig".data, JVal.num 5)],
     JVal.str ("zzz".data)]),
   ("other".data, JVal.bool true)]

/-- `frameDoc` after one patch with Replacement Value `NEW`. -/
def frameDocPatched : JVal := JVal.obj
  [(poolsKey, JVal.arr
    [JVal.obj [(userKey, JVal.str ("W.NEW".data)), ("rig".data, JVal.num 5)],
     JVal.str ("zzz".data)]),
   ("other".data, JVal.bool true)]

/-- Witness for C9 on `frameDoc`. -/
theorem patch_frame_witness :
    ∃ fields pools pools2,
      frameDoc = JVal.obj fields ∧
      dictGet fields poolsKey = some (JVal.arr pools) ∧
      frameDocPatched = JVal.obj (dictSet fields poolsKey (JVal.arr pools2)) ∧
      (∀ k, k ≠ poolsKey →
        dictGet (dictSet fields poolsKey (JVal.arr pools2)) k = dictGet fields k) ∧
      pools2.length = pools.length ∧
      (∀ (j : Nat) (p : JVal), pools[j]? = some p →
        pools2[j]? = some p ∨
        ∃ f u, p = JVal.obj f ∧ dictGet f userKey = some (JVal.str u) ∧ '.' ∈ u ∧
          replace_worker_part u ("NEW".data) ≠ u ∧
          pools2[j]? =
            some (JVal.obj (dictSet f userKey (JVal.str (replace_worker_part u ("NEW".data))))) ∧
          (∀ k, k ≠ userKey →
            dictGet (dictSet f userKey (JVal.str (replace_worker_part u ("NEW".data)))) k =
              dictGet f k)) :=
  patch_frame frameDoc ("NEW".data) 1 [previewLine 0 ("W.A".data) ("W.NEW".data)]
    frameDocPatched rfl
